import Mathlib

/-!
Shallow embedding of the email-parsing worker's core module
(`src/email_parsing_utils.py`) and verification of its specification.

Python strings are modelled as Lean `String`, raw byte payloads as
`List Nat`, Python `None`-or-`str` values as `Option String` (with
Python truthiness: `None` and `""` are falsy), and Python exceptions as
`Except` values.  External collaborators (the `create_output_file`
factory, `bytes.decode`, `hash`) are parameters of an `Env` structure so
that theorems quantify over their behaviour.
-/

deriving instance DecidableEq for Except

namespace EmailParser

/-- Python truthiness of an optional string: `None` and `""` are falsy. -/
def truthy : Option String → Bool
  | none => false
  | some s => !(s = "")

/-- The characters replaced by the sanitizer, from the regex
`[<>:"/\\|?*]` in `santitize_filename`. -/
def invalidChar (c : Char) : Bool :=
  c = '<' || c = '>' || c = ':' || c = '"' || c = '/' ||
  c = '\\' || c = '|' || c = '?' || c = '*'

/-- Model of `santitize_filename`: `re.sub(r'[<>:"/\\|?*]', '_', filename)` —
each invalid character is replaced by an underscore, all other
characters kept. -/
def santitize_filename (filename : String) : String :=
  String.mk (filename.data.map (fun c => if invalidChar c then '_' else c))

/-! ## String-method models

Models of the Python `str` methods the module uses, written over the
character list so that all definitions evaluate by kernel reduction. -/

def prefixOfChars : List Char → List Char → Bool
  | [], _ => true
  | _ :: _, [] => false
  | a :: as, b :: bs => a = b && prefixOfChars as bs

/-- Python `s.startswith(p)`. -/
def strStartsWith (s p : String) : Bool := prefixOfChars p.data s.data

/-- Python `s.endswith(p)`. -/
def strEndsWith (s p : String) : Bool :=
  prefixOfChars p.data.reverse s.data.reverse

/-- Python `s.lower()` (ASCII range, which covers every string the code
compares case-insensitively). -/
def strLower (s : String) : String := String.mk (s.data.map Char.toLower)

/-- Python `s.upper()` (ASCII range). -/
def strUpper (s : String) : String := String.mk (s.data.map Char.toUpper)

/-- The ASCII whitespace stripped by `str.strip()`. -/
def pyWs (c : Char) : Bool :=
  c = ' ' || c = '\t' || c = '\r' || c = '\n' || c = '\x0b' || c = '\x0c'

/-- Python `s.strip()`. -/
def strTrim (s : String) : String :=
  String.mk (((s.data.dropWhile pyWs).reverse.dropWhile pyWs).reverse)

/-- The numeric value of a digit string. -/
def digitsToNat (l : List Char) : Nat :=
  l.foldl (fun n c => n * 10 + (c.toNat - 48)) 0

/-- Split on a single character, keeping empty pieces: `s.split(c)`. -/
def splitOnChar (c : Char) (l : List Char) : List (List Char) :=
  l.foldr
    (fun ch acc =>
      if ch = c then [] :: acc
      else
        match acc with
        | t :: ts => (ch :: t) :: ts
        | [] => [[ch]])
    [[]]

/-- Whitespace split dropping empty pieces: `s.split()`. -/
def pySplitWs (s : String) : List String :=
  ((s.data.foldr
      (fun ch acc =>
        if pyWs ch then [] :: acc
        else
          match acc with
          | t :: ts => (ch :: t) :: ts
          | [] => [[ch]])
      [[]]).filter (· ≠ [])).map String.mk

/-! ## Timestamp normalization (`convert_timestamp_to_utc`) -/

/-- A Python `datetime.datetime` value as produced by
`email.utils.parsedate_to_datetime`: calendar fields plus an optional
timezone offset in minutes (`none` models a naive datetime). -/
structure PyDateTime where
  year : Nat
  month : Nat
  day : Nat
  hour : Nat
  minute : Nat
  second : Nat
  tzMin : Option Int
deriving DecidableEq, Repr

def dayNames : List String :=
  ["mon", "tue", "wed", "thu", "fri", "sat", "sun"]

def monthNames : List String :=
  ["jan", "feb", "mar", "apr", "may", "jun",
   "jul", "aug", "sep", "oct", "nov", "dec",
   "january", "february", "march", "april", "may", "june",
   "july", "august", "september", "october", "november", "december"]

/-- The named-zone table of `email._parseaddr._timezones`; values are in
the `±hhmm`-as-integer format the parser converts afterwards. -/
def namedTz : String → Option Int
  | "UT" => some 0 | "UTC" => some 0 | "GMT" => some 0 | "Z" => some 0
  | "AST" => some (-400) | "ADT" => some (-300)
  | "EST" => some (-500) | "EDT" => some (-400)
  | "CST" => some (-600) | "CDT" => some (-500)
  | "MST" => some (-700) | "MDT" => some (-600)
  | "PST" => some (-800) | "PDT" => some (-700)
  | _ => none

/-- Python `int(s)` on a possibly signed decimal string. -/
def pyInt (s : String) : Option Int :=
  match s.data with
  | '+' :: rest => if rest ≠ [] && rest.all Char.isDigit
                   then some (digitsToNat rest : Int) else none
  | '-' :: rest => if rest ≠ [] && rest.all Char.isDigit
                   then some (-(digitsToNat rest : Int)) else none
  | rest => if rest ≠ [] && rest.all Char.isDigit
            then some (digitsToNat rest : Int) else none

/-- Strip one trailing comma, as `_parsedate_tz` does on the day and
year tokens. -/
def stripComma (s : String) : String :=
  if strEndsWith s "," then s.dropRight 1 else s

def isLeapYear (y : Nat) : Bool :=
  (y % 4 = 0 && y % 100 ≠ 0) || y % 400 = 0

def daysInMonth (y m : Nat) : Nat :=
  if m = 2 then (if isLeapYear y then 29 else 28)
  else if m = 4 || m = 6 || m = 9 || m = 11 then 30
  else 31

/-- Split a 4-token date's last token at an embedded `+`/`-` zone, as
`_parsedate_tz` does (only a sign at a positive index splits). -/
def splitTimeTz (s : String) : List String :=
  let idxPlus := s.data.findIdx? (· = '+')
  let idx := match idxPlus with
    | some i => some i
    | none => s.data.findIdx? (· = '-')
  match idx with
  | some i => if 0 < i
      then [String.mk (s.data.take i), String.mk (s.data.drop i)]
      else [s, ""]
  | none => [s, ""]

/-- Parse the `HH:MM[:SS]` time token into (hour, minute, second). -/
def parseTimeToken (tm : String) : Option (Nat × Nat × Nat) :=
  match ((splitOnChar ':' tm.data).map String.mk).map pyInt with
  | [some h, some m] =>
      if 0 ≤ h ∧ 0 ≤ m then some (h.toNat, m.toNat, 0) else none
  | [some h, some m, some s] =>
      if 0 ≤ h ∧ 0 ≤ m ∧ 0 ≤ s then some (h.toNat, m.toNat, s.toNat) else none
  | _ => none

/-- Turn the raw `±hhmm`-format zone integer into an offset in minutes,
mirroring the `if tzoffset:` conversion of `_parsedate_tz` (zero is kept
as an explicit zero offset). -/
def tzRawToMinutes (raw : Int) : Int :=
  if raw = 0 then 0
  else if raw < 0 then -(((-raw) / 100) * 60 + (-raw) % 100)
  else (raw / 100) * 60 + raw % 100

/-- Model of CPython `email.utils.parsedate_to_datetime`, restricted to
the common RFC-2822 shape exercised by this program and its tests:
optional day-name token (dropped when it ends in a comma or is a weekday
name), day of month, month name, year (with two-digit windowing), an
`HH:MM[:SS]` time, and an optional numeric (`±hhmm`) or named zone; an
unrecognized zone token yields a naive datetime, as in CPython.  The
obsolete fallbacks of `_parsedate_tz` (RFC-850 dates, swapped day/month
and year/time tokens) are outside the model and fail like any other
unparseable input.  `.error ()` models the `ValueError` raised on
unparseable input; out-of-range calendar fields fail like the
`datetime` constructor does. -/
def parsedate_to_datetime (s : String) : Except Unit PyDateTime := do
  let data0 := pySplitWs s
  let data1 ← match data0 with
    | [] => .error ()
    | t :: rest =>
        if strEndsWith t "," || strLower t ∈ dayNames then pure rest
        else pure (t :: rest)
  let data2 := if data1.length = 4 then
      match data1 with
      | [a, b, c, d] => [a, b, c] ++ splitTimeTz d
      | l => l
    else data1
  if data2.length < 5 then .error () else
  match data2.take 5 with
  | [ddTok, mmTok, yyTok, tmTok, tzTok] =>
    let mm ← match monthNames.findIdx? (· = strLower mmTok) with
      | some i => pure (if i + 1 > 12 then i + 1 - 12 else i + 1)
      | none => .error ()
    let dd ← match pyInt (stripComma ddTok) with
      | some d => if 0 ≤ d then pure d.toNat else .error ()
      | none => .error ()
    let yy0 ← match pyInt (stripComma yyTok) with
      | some y => if 0 ≤ y then pure y.toNat else .error ()
      | none => .error ()
    let yy := if yy0 < 100 then (if yy0 > 68 then yy0 + 1900 else yy0 + 2000)
              else yy0
    let (thh, tmm, tss) ← match parseTimeToken (stripComma tmTok) with
      | some t => pure t
      | none => .error ()
    let tzRaw : Option Int :=
      match namedTz (strUpper tzTok) with
      | some v => some v
      | none =>
          match pyInt tzTok with
          | some v =>
              if v = 0 && strStartsWith tzTok "-" then none else some v
          | none => none
    let tzMin := tzRaw.map tzRawToMinutes
    -- `datetime.datetime` constructor range checks
    if 1 ≤ yy ∧ yy ≤ 9999 ∧ 1 ≤ dd ∧ dd ≤ daysInMonth yy mm ∧
       thh ≤ 23 ∧ tmm ≤ 59 ∧ tss ≤ 59 then
      pure ⟨yy, mm, dd, thh, tmm, tss, tzMin⟩
    else .error ()
  | _ => .error ()

/-- Days since 1970-01-01 of a civil date (Hinnant's algorithm). -/
def daysFromCivil (y m d : Nat) : Int :=
  let yAdj : Int := if m ≤ 2 then (y : Int) - 1 else (y : Int)
  let era : Int := (if 0 ≤ yAdj then yAdj else yAdj - 399) / 400
  let yoe : Int := yAdj - era * 400
  let mp : Nat := (m + 9) % 12
  let doy : Int := (153 * (mp : Int) + 2) / 5 + (d : Int) - 1
  let doe : Int := yoe * 365 + yoe / 4 - yoe / 100 + doy
  era * 146097 + doe - 719468

/-- Civil date from days since 1970-01-01 (Hinnant's algorithm). -/
def civilFromDays (z0 : Int) : Int × Int × Int :=
  let z : Int := z0 + 719468
  let era : Int := (if 0 ≤ z then z else z - 146096) / 146097
  let doe : Int := z - era * 146097
  let yoe : Int := (doe - doe / 1460 + doe / 36524 - doe / 146096) / 365
  let y : Int := yoe + era * 400
  let doy : Int := doe - (365 * yoe + yoe / 4 - yoe / 100)
  let mp : Int := (5 * doy + 2) / 153
  let d : Int := doy - (153 * mp + 2) / 5 + 1
  let m : Int := if mp < 10 then mp + 3 else mp - 9
  (if m ≤ 2 then y + 1 else y, m, d)

/-- Python `date.astimezone(timezone.utc)` for an aware datetime with offset
`off` minutes: shift the calendar time by `-off` minutes and attach the
zero UTC offset. -/
def astimezoneUTC (dt : PyDateTime) (off : Int) : PyDateTime :=
  let total : Int :=
    daysFromCivil dt.year dt.month dt.day * 1440 +
      (dt.hour : Int) * 60 + (dt.minute : Int) - off
  let day : Int := Int.fdiv total 1440
  let mins : Nat := (Int.emod total 1440).toNat
  let c := civilFromDays day
  ⟨c.1.toNat, c.2.1.toNat, c.2.2.toNat, mins / 60, mins % 60, dt.second, some 0⟩

/-- Zero-padded decimal rendering used by `datetime.isoformat`. -/
def padNum (w n : Nat) : String :=
  let s := toString n
  String.mk (List.replicate (w - s.length) '0') ++ s

/-- Python `datetime.isoformat()`: `YYYY-MM-DDTHH:MM:SS` plus a `±HH:MM`
suffix for aware datetimes, nothing for naive ones (microseconds are
always zero here and hence omitted). -/
def PyDateTime.isoformat (dt : PyDateTime) : String :=
  padNum 4 dt.year ++ "-" ++ padNum 2 dt.month ++ "-" ++ padNum 2 dt.day ++
    "T" ++ padNum 2 dt.hour ++ ":" ++ padNum 2 dt.minute ++ ":" ++
    padNum 2 dt.second ++
    (match dt.tzMin with
     | none => ""
     | some off =>
        if off < 0 then
          "-" ++ padNum 2 ((-off).toNat / 60) ++ ":" ++ padNum 2 ((-off).toNat % 60)
        else
          "+" ++ padNum 2 (off.toNat / 60) ++ ":" ++ padNum 2 (off.toNat % 60))

/-- Model of `convert_timestamp_to_utc`: `None`/empty input and any parse
failure yield `None`; an aware parse result is converted to UTC and
ISO-formatted; a naive parse result is ISO-formatted unchanged. -/
def convert_timestamp_to_utc (date_str : Option String) : Option String :=
  if !truthy date_str then none
  else
    match parsedate_to_datetime (date_str.getD "") with
    | .error _ => none
    | .ok dt =>
        match dt.tzMin with
        | some off => some (astimezoneUTC dt off).isoformat
        | none => some dt.isoformat

/-! ## Message model

A parsed email message is a tree of MIME parts.  Each node carries the
attributes the code reads through the `email.message` API: content
type, optional filename (`get_filename()`), optional content-disposition
header value, optional declared charset, and the raw decoded payload
bytes (`get_payload(decode=True)`).  Container (multipart) nodes are the
`multi` constructor; in parsed Python messages such nodes have no byte
payload (`get_payload(decode=True)` is `None` there) and the code never
reads it, so the `payload` field of a container node is immaterial. -/

structure PartData where
  contentType : String
  filename : Option String
  disposition : Option String
  charset : Option String
  payload : List Nat

inductive Part where
  | leaf : PartData → Part
  | multi : PartData → List Part → Part

def Part.dat : Part → PartData
  | .leaf d => d
  | .multi d _ => d

/-- Python `part.is_multipart()`. -/
def Part.is_multipart : Part → Bool
  | .leaf _ => false
  | .multi _ _ => true

mutual

/-- Python `part.walk()`: the part itself, then every subpart in depth-first
document order. -/
def Part.walk : Part → List Part
  | .leaf d => [.leaf d]
  | .multi d cs => .multi d cs :: walkList cs

def walkList : List Part → List Part
  | [] => []
  | p :: ps => p.walk ++ walkList ps

end

/-- The top-level headers the code reads with `message.get(...)`;
`none` models an absent header. -/
structure MsgHeaders where
  hTo : Option String
  hFrom : Option String
  hBcc : Option String
  hCc : Option String
  hSubject : Option String
  hDate : Option String
  hUserAgent : Option String
  hMessageId : Option String

/-- One parsed email message: its headers and its content tree (in
Python the message object *is* the root part and carries the headers). -/
structure EmailMessage where
  headers : MsgHeaders
  root : Part

def EmailMessage.walk (m : EmailMessage) : List Part := m.root.walk

def EmailMessage.is_multipart (m : EmailMessage) : Bool := m.root.is_multipart

/-- Python `message.get_content_type()`. -/
def EmailMessage.get_content_type (m : EmailMessage) : String :=
  m.root.dat.contentType

/-- Python `part.get_content_maintype()`: the content type up to the slash. -/
def mainTypeOf (ct : String) : String :=
  String.mk (ct.data.takeWhile (· ≠ '/'))

/-- Python `part.get_content_charset() or "utf-8"` (Python `or`: `None` and
the empty string fall back to the default). -/
def charsetOr (c : Option String) : String :=
  if truthy c then c.getD "" else "utf-8"

/-! ## Body extraction (`get_message_body`)

`dec` is the model of Python `bytes.decode(codec, errors="replace")`:
a total function (replacement instead of raising) from a codec name and
the raw bytes to text. -/

/-- Model of `get_message_body`: for a multipart message, walk all parts in
depth-first document order and return the decoded payload of the first
part whose content type is exactly `text/plain`, or `""` when none
exists; for a non-multipart message, decode the sole payload. -/
def get_message_body (dec : String → List Nat → String) (m : EmailMessage) : String :=
  if m.is_multipart then
    match m.walk.find? (fun p => p.dat.contentType == "text/plain") with
    | some p => dec (charsetOr p.dat.charset) p.dat.payload
    | none => ""
  else
    dec (charsetOr m.root.dat.charset) m.root.dat.payload

/-! ## Metadata assembly (`extract_message_metadata`) -/

/-- One metadata row; field names follow the Python dict keys
(`from_`/`message_id`/... stand for the `From`/`Message-ID`/... keys). -/
structure MetadataRecord where
  timestamp : Option String
  timestamp_desc : String
  message : String
  to_ : Option String
  from_ : Option String
  bcc : Option String
  cc : Option String
  subject : Option String
  message_id : String
  date : Option String
  content_type : String
  attachments : List String
  user_agent : Option String
  body : String
deriving DecidableEq, Repr

/-- Model of `extract_message_metadata(attachments, message)`. -/
def extract_message_metadata (dec : String → List Nat → String)
    (attachments : List String) (message : EmailMessage) : MetadataRecord :=
  { timestamp := convert_timestamp_to_utc message.headers.hDate
    timestamp_desc := "Email received"
    message := "Email message"
    to_ := message.headers.hTo
    from_ := message.headers.hFrom
    bcc := message.headers.hBcc
    cc := message.headers.hCc
    subject := message.headers.hSubject
    message_id := message.headers.hMessageId.getD ""
    date := message.headers.hDate
    content_type := message.get_content_type
    attachments := attachments
    user_agent := message.headers.hUserAgent
    body := get_message_body dec message }

/-! ## Attachment extraction (`extract_message_attachments`) -/

/-- The descriptor of one allocated output file, as returned by the
`create_output_file` collaborator (`to_dict()` is modelled as the
descriptor itself). -/
structure OutputFile where
  display_name : String
  extension : String
  data_type : String
  path : String
deriving DecidableEq, Repr

/-- The external collaborators of the module, as parameters:
`dec` models `bytes.decode(·, errors="replace")`; `create_output_file`
models the output-file factory (`.error` models a raised exception);
`write_file` models `open(path, 'wb').write(payload)`; `hashStr m`
models `str(abs(hash(str(m))))`. -/
structure Env where
  dec : String → List Nat → String
  create_output_file : String → String → String → String → Except Unit OutputFile
  write_file : String → List Nat → Except Unit Unit
  hashStr : EmailMessage → String

/-- Last index of `c` in `l`, or `-1`: Python `str.rfind`. -/
def rfindChar (l : List Char) (c : Char) : Int :=
  match l.reverse.findIdx? (· = c) with
  | some i => ((l.length - 1 - i : Nat) : Int)
  | none => -1

/-- CPython `os.path.splitext` (posix): split at the last dot, except
that a basename consisting only of leading dots up to that dot has no
extension. -/
def splitext (p : String) : String × String :=
  let cs := p.data
  let sepIndex := rfindChar cs '/'
  let dotIndex := rfindChar cs '.'
  if sepIndex < dotIndex then
    let between := (cs.drop (sepIndex + 1).toNat).take (dotIndex - sepIndex - 1).toNat
    if between.any (· ≠ '.') then
      (String.mk (cs.take dotIndex.toNat), String.mk (cs.drop dotIndex.toNat))
    else (p, "")
  else (p, "")

/-- The extraction condition of `extract_message_attachments` on the
stripped, lowercased disposition value. -/
def dispOk (d : String) : Bool :=
  strStartsWith (strLower (strTrim d)) "attachment" ||
  strStartsWith (strLower (strTrim d)) "inline"

/-- The condition `(disposition and disposition.strip().lower().startswith(("attachment",
"inline"))) or (not disposition and maintype != 'text' and filename)`. -/
def extractEligible (disposition : Option String) (maintype filename : String) : Bool :=
  (truthy disposition && dispOk (disposition.getD "")) ||
  (!truthy disposition && !(maintype == "text") && !(filename == ""))

/-- The message identifier used in display names: the sanitized
`Message-ID` header, or the synthesized
`"unknown_message_" + str(abs(hash(str(message))))[:8]` when that is
empty. -/
def mkMessageId (env : Env) (message : EmailMessage) : String :=
  let message_id := santitize_filename (message.headers.hMessageId.getD "")
  if message_id = "" then "unknown_message_" ++ (env.hashStr message).take 8
  else message_id

/-- The per-part body of the extraction loop: container parts are
skipped, parts without a (truthy) filename are passed over, eligible
parts are written out and contribute their descriptor, and an allocation
or write failure is caught (the descriptor is dropped, nothing else is
affected). -/
def extractPart (env : Env) (output_path message_id : String) (p : Part) : List OutputFile :=
  if p.is_multipart then []
  else if truthy p.dat.filename then
    let filename := p.dat.filename.getD ""
    let disposition := p.dat.disposition
    let maintype := mainTypeOf p.dat.contentType
    if extractEligible disposition maintype filename then
      let be := splitext filename
      let processed_ext := be.2.drop 1
      let attachment_file_display_name := be.1 ++ "." ++ message_id
      match env.create_output_file output_path attachment_file_display_name
          processed_ext processed_ext with
      | .ok output_file =>
          match env.write_file output_file.path p.dat.payload with
          | .ok _ => [output_file]
          | .error _ => []
      | .error _ => []
    else []
  else []

/-- Model of `extract_message_attachments(message, output_path)` (the
`isinstance` guard is satisfied by construction here: every modelled
value is a message). -/
def extract_message_attachments (env : Env) (message : EmailMessage)
    (output_path : String) : List OutputFile :=
  let message_id := mkMessageId env message
  message.walk.flatMap (extractPart env output_path message_id)

/-! ## Multi-message container parser
(`parse_mbox_to_dict_and_extract_attachments`)

Opening the mailbox and requesting each message from the iterator may
raise; `MboxInput` models the container as either a raised exception at
open time or a list of entries each of which either yields a message or
raises when the loop reaches it. -/

inductive PyExc where
  | noSuchMailbox
  | other
deriving DecidableEq, Repr

abbrev MboxInput := Except PyExc (List (Except PyExc EmailMessage))

/-- The inner attachment pass of the mbox loop: `attachment_file_paths`
is reset to `[]`, then for *each* part of the message carrying a truthy
filename the full `extract_message_attachments(message, ...)` call runs
again and its whole result is appended. -/
def msgAttachmentsPass (env : Env) (output_path : String)
    (message : EmailMessage) : List OutputFile :=
  message.walk.foldl
    (fun acc p =>
      if truthy p.dat.filename
      then acc ++ extract_message_attachments env message output_path
      else acc)
    []

/-- The `try`-block body of the mbox parser from the `for` loop onward:
processes entries in order, threading the `attachment_file_paths` and
`messages_metadata` locals; an entry that raises propagates the
exception together with the locals at that point (`attachment_filenames`
is reset to `[]` per message and never populated, so the metadata
always receives `[]`). -/
def mboxTry (env : Env) (output_path : String) :
    List (Except PyExc EmailMessage) → List OutputFile → List MetadataRecord →
    Except (PyExc × List OutputFile × List MetadataRecord)
      (List OutputFile × List MetadataRecord)
  | [], afp, meta => .ok (afp, meta)
  | .error e :: _, afp, meta => .error (e, afp, meta)
  | .ok message :: rest, _, meta =>
      mboxTry env output_path rest (msgAttachmentsPass env output_path message)
        (meta ++ [extract_message_metadata env.dec [] message])

/-- Model of `parse_mbox_to_dict_and_extract_attachments`:
the whole open-and-loop body runs inside one `try`; both handlers
(`NoSuchMailboxError` and the catch-all `Exception`) log and fall
through to the final `return`, which hands back the locals as they
stand.  The `Except` result type is the caller-visible behaviour: an
`.error` would model a propagated exception. -/
def parse_mbox_to_dict_and_extract_attachments (env : Env) (input : MboxInput)
    (output_path : String) :
    Except PyExc (List OutputFile × List MetadataRecord) :=
  match input with
  | .error _ => .ok ([], [])
  | .ok entries =>
      match mboxTry env output_path entries [] [] with
      | .ok st => .ok st
      | .error (_, afp, meta) => .ok (afp, meta)

/-! ## CSV writer (`write_dict_to_csv`) and a standard CSV reader

`csv.DictWriter` with the default dialect: delimiter `,`, quote char
`"`, line terminator `\r\n`, minimal quoting (a field is quoted exactly
when it contains a delimiter, a quote char, or a line-terminator
character; embedded quote chars are doubled).  A record is an
association list from column name to an optional string value; a `None`
value and a missing key (the `restval=None` default) both serialize as
the empty string.  The reader below is an ordinary standard-conforming
CSV parser, written only to state the round-trip property. -/

/-- One metadata record as handed to the writer: column name to
optional string value. -/
abbrev CsvRecord := List (String × Option String)

/-- The serialized cell for column `k` of record `r`: the value if
present and not `None`, otherwise the empty string. -/
def cellOf (r : CsvRecord) (k : String) : String :=
  match r.find? (fun kv => kv.1 == k) with
  | some (_, some s) => s
  | some (_, none) => ""
  | none => ""

/-- Characters that force quoting under minimal quoting. -/
def csvSpecialChar (c : Char) : Bool :=
  c = ',' || c = '"' || c = '\r' || c = '\n'

def csvNeedsQuote (f : String) : Bool := f.data.any csvSpecialChar

/-- Double every embedded quote char. -/
def escapeQuotes : List Char → List Char
  | [] => []
  | c :: cs =>
      if c = '"' then '"' :: '"' :: escapeQuotes cs
      else c :: escapeQuotes cs

/-- One serialized field under minimal quoting. -/
def csvFieldChars (f : String) : List Char :=
  if csvNeedsQuote f then '"' :: (escapeQuotes f.data ++ ['"']) else f.data

/-- One serialized row: fields joined by `,`, terminated by `\r\n`. -/
def csvRowChars : List String → List Char
  | [] => ['\r', '\n']
  | [f] => csvFieldChars f ++ ['\r', '\n']
  | f :: g :: fs => csvFieldChars f ++ ',' :: csvRowChars (g :: fs)

/-- Model of `write_dict_to_csv(message_dict, headers, output_file)`: the
content written to `output_file.path` — a header row followed by one
row per record with the cells in header order (the function itself
returns the `output_file` handle). -/
def write_dict_to_csv (message_dict : List CsvRecord) (headers : List String) : String :=
  String.mk (csvRowChars headers ++
    message_dict.flatMap (fun r => csvRowChars (headers.map (cellOf r))))

/-- The fixed 14-column header of `tasks.py`. -/
def csv_headers : List String :=
  ["Timestamp", "Timestamp_desc", "Message", "To", "From", "Bcc",
   "Cc", "Subject", "Message-ID", "Date", "Content-Type",
   "Attachments", "User-Agent", "Body"]

/-- Reader: the body of a quoted field after its opening quote;
returns the field content and the input after the closing quote. -/
def parseQuoted : List Char → List Char × List Char
  | [] => ([], [])
  | c :: rest =>
      if c = '"' then
        match rest with
        | [] => ([], [])
        | c2 :: rest2 =>
            if c2 = '"' then
              let r := parseQuoted rest2
              ('"' :: r.1, r.2)
            else ([], rest)
      else
        let r := parseQuoted rest
        (c :: r.1, r.2)

/-- Reader: an unquoted field, ending before a delimiter or
line-terminator character. -/
def parseUnquoted : List Char → List Char × List Char
  | [] => ([], [])
  | c :: rest =>
      if c = ',' || c = '\r' || c = '\n' then ([], c :: rest)
      else
        let r := parseUnquoted rest
        (c :: r.1, r.2)

/-- Reader: one field (quoted or not). -/
def parseField : List Char → List Char × List Char
  | [] => ([], [])
  | c :: rest => if c = '"' then parseQuoted rest else parseUnquoted (c :: rest)

/-- Reader: one row — fields separated by `,`, ended by a line
terminator or the end of input.  `fuel` bounds the number of fields. -/
def parseRowAux : Nat → List Char → List String × List Char
  | 0, s => ([], s)
  | fuel + 1, s =>
      let f := parseField s
      match f.2 with
      | [] => ([String.mk f.1], [])
      | c :: r1 =>
          if c = ',' then
            let r := parseRowAux fuel r1
            (String.mk f.1 :: r.1, r.2)
          else if c = '\r' then
            match r1 with
            | c2 :: r2 => if c2 = '\n' then ([String.mk f.1], r2)
                          else ([String.mk f.1], c :: r1)
            | [] => ([String.mk f.1], c :: r1)
          else if c = '\n' then ([String.mk f.1], r1)
          else ([String.mk f.1], c :: r1)

def parseRow (s : List Char) : List String × List Char :=
  parseRowAux (s.length + 1) s

/-- Reader: all rows.  `fuel` bounds the number of rows. -/
def parseRowsAux : Nat → List Char → List (List String)
  | 0, _ => []
  | _ + 1, [] => []
  | fuel + 1, c :: rest =>
      let r := parseRow (c :: rest)
      r.1 :: parseRowsAux fuel r.2

/-- A standard CSV reader over a whole file. -/
def parseCsv (s : String) : List (List String) :=
  parseRowsAux s.data.length s.data

/-! ## The classification predicate of the specification

Claim-side restatement of the extraction condition (§4.4 step 3 of the
spec): the disposition, stripped and lowercased, begins with
`attachment` or `inline`, or there is no (truthy) content-disposition
and the maintype is not `text`.  This is the predicate the code is
checked against. -/

def claimExtractable (p : Part) : Bool :=
  (truthy p.dat.disposition && dispOk (p.dat.disposition.getD "")) ||
  (!truthy p.dat.disposition && !(mainTypeOf p.dat.contentType == "text"))

/-! ## Concrete sample data used by witnesses and counterexamples -/

/-- A concrete decoder standing in for `bytes.decode(·, "replace")`:
interpret each byte as a character code. -/
def dec0 (_codec : String) (bs : List Nat) : String :=
  String.mk (bs.map Char.ofNat)

/-- A concrete output-file factory result. -/
def mkOut0 (op dn ext dt : String) : OutputFile :=
  ⟨dn, ext, dt, op ++ "/" ++ dn ++ "." ++ ext⟩

/-- A concrete environment in which allocation and writing always
succeed. -/
def env0 : Env :=
  { dec := dec0
    create_output_file := fun op dn ext dt => .ok (mkOut0 op dn ext dt)
    write_file := fun _ _ => .ok ()
    hashStr := fun _ => "123456789" }

def hdrs0 (mid subj : String) : MsgHeaders :=
  { hTo := some "to@example.com", hFrom := some "from@example.com",
    hBcc := none, hCc := none, hSubject := some subj, hDate := none,
    hUserAgent := none, hMessageId := some mid }

/-- A `text/plain` body leaf with payload `"hi"`. -/
def bodyLeaf : Part := .leaf ⟨"text/plain", none, none, some "utf-8", [104, 105]⟩

/-- A leaf part declared as an attachment with the given filename. -/
def attLeaf (fn : String) : Part :=
  .leaf ⟨"text/plain", some fn, some "attachment", none, [65]⟩

/-- A single-attachment multipart message. -/
def msgA (mid subj fn : String) : EmailMessage :=
  ⟨hdrs0 mid subj, .multi ⟨"multipart/mixed", none, none, none, []⟩
    [bodyLeaf, attLeaf fn]⟩

/-- A plain non-multipart message with no attachments. -/
def msgPlain (mid subj : String) : EmailMessage :=
  ⟨hdrs0 mid subj, bodyLeaf⟩

/-- A message with two attachment parts. -/
def msgTwoAtt : EmailMessage :=
  ⟨hdrs0 "<m4>" "S4", .multi ⟨"multipart/mixed", none, none, none, []⟩
    [bodyLeaf, attLeaf "a.txt", attLeaf "b.txt"]⟩

/-- A multipart message with an HTML alternative before the plain-text
part. -/
def msgHtmlThenPlain : EmailMessage :=
  ⟨hdrs0 "<b>" "SB", .multi ⟨"multipart/alternative", none, none, none, []⟩
    [.leaf ⟨"text/html", none, none, none, [60]⟩,
     .leaf ⟨"text/plain", none, none, some "utf-8", [104, 105]⟩]⟩

/-! # Theorems -/

/-! ## Helper lemmas -/

theorem invalidChar_step (a : Char) :
    invalidChar (if invalidChar a then '_' else a) = false := by
  by_cases h : invalidChar a
  · simp [h]
    decide
  · simp [h]

/-- C8: for every input string, the sanitizer returns a string of the
same length, containing none of the characters `< > : " / \ | ? *`,
agreeing with the input wherever the input character is not in that set
and holding `_` wherever it is; the empty string maps to itself (and the
function is total, hence never raises). -/
theorem santitize_filename_spec (s : String) :
    (santitize_filename s).length = s.length ∧
    (∀ c ∈ (santitize_filename s).data, invalidChar c = false) ∧
    (∀ i (h : i < s.data.length) (h' : i < (santitize_filename s).data.length),
      (invalidChar (s.data.get ⟨i, h⟩) = false →
        (santitize_filename s).data.get ⟨i, h'⟩ = s.data.get ⟨i, h⟩) ∧
      (invalidChar (s.data.get ⟨i, h⟩) = true →
        (santitize_filename s).data.get ⟨i, h'⟩ = '_')) ∧
    santitize_filename "" = "" := by
  refine ⟨?_, ?_, ?_, rfl⟩
  · exact List.length_map _ _
  · intro c hc
    simp only [santitize_filename, List.mem_map] at hc
    obtain ⟨a, _, ha⟩ := hc
    rw [← ha]
    exact invalidChar_step a
  · intro i h h'
    constructor
    · intro hinv
      simp only [santitize_filename, List.get_eq_getElem, List.getElem_map]
      simp only [List.get_eq_getElem] at hinv
      simp [hinv]
    · intro hinv
      simp only [santitize_filename, List.get_eq_getElem, List.getElem_map]
      simp only [List.get_eq_getElem] at hinv
      simp [hinv]

theorem santitize_filename_spec_witness :
    (santitize_filename "a<b").length = ("a<b" : String).length ∧
    (santitize_filename "a<b").data.get ⟨0, by decide⟩ = 'a' ∧
    (santitize_filename "a<b").data.get ⟨1, by decide⟩ = '_' := by
  have h := santitize_filename_spec "a<b"
  refine ⟨h.1, ?_, ?_⟩
  · exact (h.2.2.1 0 (by decide) (by decide)).1 (by decide)
  · exact (h.2.2.1 1 (by decide) (by decide)).2 (by decide)

/-- C7: the timestamp normalizer returns absence for absent/empty input
and for every unparseable date string (the parse failure is caught, not
propagated); a parseable string with an explicit timezone offset yields
the ISO-8601 rendering of the time converted to UTC (in particular the
spec's example); a parseable string with no timezone yields the naive
ISO-8601 rendering unconverted. -/
theorem convert_timestamp_to_utc_spec :
    convert_timestamp_to_utc none = none ∧
    convert_timestamp_to_utc (some "") = none ∧
    (∀ s, parsedate_to_datetime s = .error () →
      convert_timestamp_to_utc (some s) = none) ∧
    (∀ s dt off, parsedate_to_datetime s = .ok dt → dt.tzMin = some off →
      convert_timestamp_to_utc (some s) = some (astimezoneUTC dt off).isoformat ∧
      (astimezoneUTC dt off).tzMin = some 0) ∧
    (∀ s dt, parsedate_to_datetime s = .ok dt → dt.tzMin = none →
      convert_timestamp_to_utc (some s) = some dt.isoformat) ∧
    convert_timestamp_to_utc (some "Mon, 15 Jul 2024 10:30:00 -0400") =
      some "2024-07-15T14:30:00+00:00" := by
  have hemp : parsedate_to_datetime "" = .error () := by decide
  refine ⟨rfl, rfl, ?_, ?_, ?_, by decide⟩
  · intro s hs
    by_cases h0 : s = ""
    · subst h0; rfl
    · simp [convert_timestamp_to_utc, truthy, h0, hs]
  · intro s dt off hs htz
    by_cases h0 : s = ""
    · subst h0; rw [hemp] at hs; exact absurd hs (by simp)
    · refine ⟨?_, rfl⟩
      simp [convert_timestamp_to_utc, truthy, h0, hs, htz]
  · intro s dt hs htz
    by_cases h0 : s = ""
    · subst h0; rw [hemp] at hs; exact absurd hs (by simp)
    · simp [convert_timestamp_to_utc, truthy, h0, hs, htz]

theorem convert_timestamp_to_utc_spec_witness :
    convert_timestamp_to_utc (some "not a date") = none ∧
    convert_timestamp_to_utc (some "Mon, 15 Jul 2024 14:30:00") =
      some "2024-07-15T14:30:00" := by
  have h := convert_timestamp_to_utc_spec
  constructor
  · exact h.2.2.1 "not a date" (by decide)
  · have hx := h.2.2.2.2.1 "Mon, 15 Jul 2024 14:30:00"
      ⟨2024, 7, 15, 14, 30, 0, none⟩ (by decide) rfl
    rw [hx]; decide

/-- C10: for every input (a failed open, or any list of entries
including ones that raise while being read) and every output path, the
multi-message parser propagates no exception: the result seen by the
caller is always `.ok` with a pair of (possibly empty) lists. -/
theorem parse_mbox_never_propagates (env : Env) (input : MboxInput)
    (output_path : String) :
    ∃ st, parse_mbox_to_dict_and_extract_attachments env input output_path =
      .ok st := by
  cases input with
  | error e => exact ⟨([], []), rfl⟩
  | ok entries =>
      cases h : mboxTry env output_path entries [] [] with
      | ok st =>
          exact ⟨st, by simp [parse_mbox_to_dict_and_extract_attachments, h]⟩
      | error p =>
          exact ⟨(p.2.1, p.2.2),
            by simp [parse_mbox_to_dict_and_extract_attachments, h]⟩

theorem mboxTry_stops_at_error (env : Env) (op : String) (e : PyExc)
    (rest : List (Except PyExc EmailMessage)) :
    ∀ (pre : List EmailMessage) (afp : List OutputFile)
      (meta : List MetadataRecord),
      ∃ afp', mboxTry env op (pre.map .ok ++ .error e :: rest) afp meta =
        .error (e, afp', meta ++ pre.map (extract_message_metadata env.dec [])) := by
  intro pre
  induction pre with
  | nil => intro afp meta; exact ⟨afp, by simp [mboxTry]⟩
  | cons m ms ih =>
      intro afp meta
      obtain ⟨afp', h⟩ := ih (msgAttachmentsPass env op m)
        (meta ++ [extract_message_metadata env.dec [] m])
      refine ⟨afp', ?_⟩
      simp only [List.map_cons, List.cons_append, mboxTry, List.append_eq]
      rw [h]
      simp

/-- C3 counterexample: in a container whose second entry raises while
the first and third are fine, the third message's MetadataRecord is NOT
in the returned list — the whole loop is wrapped in one `try`, so the
exception aborts the remaining messages instead of skipping only the
raising one. -/
theorem mbox_stop_on_error_counterexample :
    parse_mbox_to_dict_and_extract_attachments env0
        (.ok [.ok (msgPlain "<m1>" "S1"), .error .other,
              .ok (msgPlain "<m3>" "S3")]) "out" =
      .ok ([], [extract_message_metadata env0.dec [] (msgPlain "<m1>" "S1")]) ∧
    extract_message_metadata env0.dec [] (msgPlain "<m3>" "S3") ≠
      extract_message_metadata env0.dec [] (msgPlain "<m1>" "S1") := by
  constructor
  · decide
  · decide

/-- C3 (amended): a per-message exception is caught (nothing
propagates to the caller), but container processing stops there: the
returned metadata records are exactly those of the messages processed
before the raising entry, and every entry after it is skipped. -/
theorem mbox_error_returns_prefix_records (env : Env) (op : String)
    (pre : List EmailMessage) (e : PyExc)
    (rest : List (Except PyExc EmailMessage)) :
    ∃ afp, parse_mbox_to_dict_and_extract_attachments env
        (.ok (pre.map .ok ++ .error e :: rest)) op =
      .ok (afp, pre.map (extract_message_metadata env.dec [])) := by
  obtain ⟨afp', h⟩ := mboxTry_stops_at_error env op e rest pre [] []
  refine ⟨afp', ?_⟩
  simp [parse_mbox_to_dict_and_extract_attachments, h]

/-- C1 (code_bug evidence): a mailbox of three messages, each carrying
one distinct qualifying attachment, returns only ONE ExtractedFile
descriptor — the last message's — because `attachment_file_paths` is
reset at the top of every loop iteration; the metadata list does have
all 3 records. -/
theorem mbox_returns_only_last_message_attachments :
    Except.map (fun st => (st.1, st.2.length))
      (parse_mbox_to_dict_and_extract_attachments env0
        (.ok [.ok (msgA "<m1>" "S1" "a1.txt"), .ok (msgA "<m2>" "S2" "a2.txt"),
              .ok (msgA "<m3>" "S3" "a3.txt")]) "out") =
      .ok ([mkOut0 "out" "a3._m3_" "txt" "txt"], 3) := by
  decide

/-- C2 (code_bug evidence): for a message owning one leaf part with
filename `report.txt`, the produced MetadataRecord has an empty
`Attachments` list — `attachment_filenames` is reset to `[]` every
iteration and never populated — although the message's leaf parts with
a filename are exactly `["report.txt"]`. -/
theorem mbox_metadata_attachments_empty :
    Except.map (fun st => st.2.map (fun r => r.attachments))
      (parse_mbox_to_dict_and_extract_attachments env0
        (.ok [.ok (msgA "<r>" "SR" "report.txt")]) "out") = .ok [[]] ∧
    ((msgA "<r>" "SR" "report.txt").walk.filter
        (fun p => !p.is_multipart && truthy p.dat.filename)).filterMap
      (fun p => p.dat.filename) = ["report.txt"] := by
  constructor
  · decide
  · decide

/-- C4 (code_bug evidence): a single message with two qualifying
attachment parts yields FOUR descriptors — the nested per-part loop of
the mbox parser re-runs the whole-message extractor once for every part
that carries a filename, so each qualifying part is extracted more than
once per message (the claim requires exactly one descriptor per
qualifying part, i.e. two). -/
theorem mbox_duplicates_qualifying_parts :
    Except.map (fun st => st.1.map (fun f => f.display_name))
      (parse_mbox_to_dict_and_extract_attachments env0
        (.ok [.ok msgTwoAtt]) "out") =
      .ok ["a._m4_", "b._m4_", "a._m4_", "b._m4_"] := by
  decide

theorem flatMap_if_singleton {α β : Type} (q : α → Bool) (d : α → β) :
    ∀ l : List α,
      l.flatMap (fun p => if q p then [d p] else []) = (l.filter q).map d := by
  intro l
  induction l with
  | nil => rfl
  | cons a as ih =>
      by_cases h : q a <;> simp [List.flatMap_cons, List.filter_cons, h, ih]

theorem extractPart_eq_pointwise (env : Env)
    (mkOut : String → String → String → String → OutputFile)
    (hc : ∀ a b c d, env.create_output_file a b c d = .ok (mkOut a b c d))
    (hw : ∀ p bs, env.write_file p bs = .ok ())
    (op mid : String) (p : Part) :
    extractPart env op mid p =
      if !p.is_multipart && truthy p.dat.filename && claimExtractable p then
        [mkOut op ((splitext (p.dat.filename.getD "")).1 ++ "." ++ mid)
          ((splitext (p.dat.filename.getD "")).2.drop 1)
          ((splitext (p.dat.filename.getD "")).2.drop 1)]
      else [] := by
  unfold extractPart
  by_cases hm : p.is_multipart
  · simp [hm]
  · by_cases hf : truthy p.dat.filename
    · have hfne : (p.dat.filename.getD "" == "") = false := by
        cases hof : p.dat.filename with
        | none => rw [hof] at hf; simp [truthy] at hf
        | some s =>
            rw [hof] at hf
            simp only [truthy, Bool.not_eq_true'] at hf
            simpa using (by simpa using hf : ¬(s = ""))
      have helig : extractEligible p.dat.disposition
          (mainTypeOf p.dat.contentType) (p.dat.filename.getD "") =
          claimExtractable p := by
        simp [extractEligible, claimExtractable, hfne]
      by_cases he : claimExtractable p
      · simp [hm, hf, helig, he, hc, hw]
      · simp [hm, hf, helig, he]
    · simp [hm, hf]

/-- C5: for every message (and in every environment where allocation
and writing succeed), the attachment extractor's output is exactly one
descriptor per leaf part that has a truthy filename and satisfies the
extraction condition — the disposition, stripped and lowercased, begins
with `attachment` or `inline`, or there is no (truthy) disposition and
the maintype is not `text` — in document order of the walk; leaf parts
without a filename and container parts contribute nothing, and the
function is total (no error is raised for them). -/
theorem extract_message_attachments_spec (env : Env)
    (mkOut : String → String → String → String → OutputFile)
    (hc : ∀ a b c d, env.create_output_file a b c d = .ok (mkOut a b c d))
    (hw : ∀ p bs, env.write_file p bs = .ok ())
    (message : EmailMessage) (output_path : String) :
    extract_message_attachments env message output_path =
      (message.walk.filter
          (fun p => !p.is_multipart && truthy p.dat.filename &&
            claimExtractable p)).map
        (fun p =>
          mkOut output_path
            ((splitext (p.dat.filename.getD "")).1 ++ "." ++
              mkMessageId env message)
            ((splitext (p.dat.filename.getD "")).2.drop 1)
            ((splitext (p.dat.filename.getD "")).2.drop 1)) := by
  simp only [extract_message_attachments]
  have hpt : extractPart env output_path (mkMessageId env message) =
      fun p =>
        if !p.is_multipart && truthy p.dat.filename && claimExtractable p then
          [mkOut output_path
            ((splitext (p.dat.filename.getD "")).1 ++ "." ++
              mkMessageId env message)
            ((splitext (p.dat.filename.getD "")).2.drop 1)
            ((splitext (p.dat.filename.getD "")).2.drop 1)]
        else [] :=
    funext (extractPart_eq_pointwise env mkOut hc hw output_path
      (mkMessageId env message))
  rw [hpt]
  exact flatMap_if_singleton _ _ message.walk

theorem extract_message_attachments_spec_witness :
    extract_message_attachments env0 (msgA "<m1>" "S1" "a1.txt") "out" =
      [mkOut0 "out" "a1._m1_" "txt" "txt"] := by
  have h := extract_message_attachments_spec env0 mkOut0
    (fun a b c d => rfl) (fun p bs => rfl) (msgA "<m1>" "S1" "a1.txt") "out"
  rw [h]
  decide

theorem find?_eq_of_first {α : Type} (p : α → Bool) :
    ∀ (l : List α) (i : Nat) (h : i < l.length),
      p (l.get ⟨i, h⟩) = true →
      (∀ j (hj : j < l.length), j < i → p (l.get ⟨j, hj⟩) = false) →
      l.find? p = some (l.get ⟨i, h⟩) := by
  intro l
  induction l with
  | nil => intro i h; exact absurd h (by simp)
  | cons a as ih =>
      intro i h hp hprev
      cases i with
      | zero =>
          simp only [List.get] at hp ⊢
          rw [List.find?_cons, hp]
      | succ n =>
          have ha : p a = false := by
            have := hprev 0 (by simp) (by omega)
            simpa [List.get] using this
          rw [List.find?_cons, ha]
          simp only [List.get] at hp ⊢
          exact ih n (by simpa using h) hp (fun j hj hlt => by
            have := hprev (j + 1) (by simpa using hj) (by omega)
            simpa [List.get] using this)

/-- C6: for a multipart message the body extractor returns the decoded
payload — using the declared charset, defaulting to `utf-8`, through
the total (never-raising) decoder — of the first part in depth-first
document order whose content type is exactly `text/plain`, and the
empty string when no part has that content type; for a non-multipart
message it returns the sole payload decoded the same way. -/
theorem get_message_body_spec (dec : String → List Nat → String)
    (m : EmailMessage) :
    (m.is_multipart = true →
      (∀ i (h : i < m.walk.length),
        (m.walk.get ⟨i, h⟩).dat.contentType = "text/plain" →
        (∀ j (hj : j < m.walk.length), j < i →
          (m.walk.get ⟨j, hj⟩).dat.contentType ≠ "text/plain") →
        get_message_body dec m =
          dec (charsetOr (m.walk.get ⟨i, h⟩).dat.charset)
            (m.walk.get ⟨i, h⟩).dat.payload) ∧
      ((∀ p ∈ m.walk, p.dat.contentType ≠ "text/plain") →
        get_message_body dec m = "")) ∧
    (m.is_multipart = false →
      get_message_body dec m =
        dec (charsetOr m.root.dat.charset) m.root.dat.payload) := by
  refine ⟨fun hm => ⟨?_, ?_⟩, fun hm => ?_⟩
  · intro i h hct hprev
    have hfind := find?_eq_of_first
      (fun p => p.dat.contentType == "text/plain") m.walk i h
      (by simpa using hct)
      (fun j hj hlt => by simpa using hprev j hj hlt)
    simp [get_message_body, hm, hfind]
  · intro hnone
    have hfind : m.walk.find? (fun p => p.dat.contentType == "text/plain")
        = none := by
      rw [List.find?_eq_none]
      intro p hp
      simpa using hnone p hp
    simp [get_message_body, hm, hfind]
  · simp [get_message_body, hm]

theorem get_message_body_spec_witness :
    get_message_body dec0 msgHtmlThenPlain = "hi" := by
  have h := ((get_message_body_spec dec0 msgHtmlThenPlain).1 (by decide)).1
    2 (by decide) (by decide)
    (fun j hj hlt => by
      revert hlt
      revert hj
      revert j
      decide)
  rw [h]
  decide

theorem strMkData (s : String) : String.mk s.data = s := rfl

theorem parseQuoted_render : ∀ (f rest : List Char),
    rest.head? ≠ some '"' →
    parseQuoted (escapeQuotes f ++ '"' :: rest) = (f, rest) := by
  intro f
  induction f with
  | nil =>
      intro rest hr
      show parseQuoted ('"' :: rest) = ([], rest)
      cases rest with
      | nil => rfl
      | cons c rs =>
          have hc : ¬(c = '"') := by simpa using hr
          simp [parseQuoted, hc]
  | cons c cs ih =>
      intro rest hr
      by_cases hc : c = '"'
      · subst hc
        simp only [escapeQuotes, if_pos rfl, List.cons_append]
        simp [parseQuoted, ih rest hr]
      · simp only [escapeQuotes, if_neg hc, List.cons_append]
        rw [parseQuoted.eq_def]
        simp [hc, ih rest hr]

theorem parseUnquoted_render : ∀ (f : List Char),
    (∀ c ∈ f, csvSpecialChar c = false) →
    ∀ (d : Char) (rs : List Char), d = ',' ∨ d = '\r' ∨ d = '\n' →
    parseUnquoted (f ++ d :: rs) = (f, d :: rs) := by
  intro f
  induction f with
  | nil =>
      intro _ d rs hd
      have hdel : (d = ',' || d = '\r' || d = '\n') = true := by
        rcases hd with h | h | h <;> simp [h]
      simp [parseUnquoted, hdel]
  | cons c cs ih =>
      intro hf d rs hd
      have hcs : csvSpecialChar c = false := hf c (by simp)
      simp only [csvSpecialChar, Bool.or_eq_false_iff] at hcs
      obtain ⟨⟨⟨h1, _⟩, h3⟩, h4⟩ := hcs
      simp only [List.cons_append, parseUnquoted]
      simp only [decide_eq_false_iff_not] at h1 h3 h4
      simp [h1, h3, h4, ih (fun x hx => hf x (by simp [hx])) d rs hd]

theorem parseField_render (f : String) (d : Char)
    (hd : d = ',' ∨ d = '\r') (rest : List Char) :
    parseField (csvFieldChars f ++ d :: rest) = (f.data, d :: rest) := by
  have hdnq : ¬(d = '"') := by rcases hd with h | h <;> simp [h]
  have hd3 : d = ',' ∨ d = '\r' ∨ d = '\n' := by
    rcases hd with h | h
    · exact Or.inl h
    · exact Or.inr (Or.inl h)
  by_cases hq : csvNeedsQuote f
  · have hhead : (d :: rest).head? ≠ some '"' := by simpa using hdnq
    simp only [csvFieldChars, if_pos hq, List.cons_append, List.append_assoc,
      List.singleton_append]
    simp [parseField, parseQuoted_render f.data (d :: rest) hhead]
  · have hnospec : ∀ c ∈ f.data, csvSpecialChar c = false := by
      intro c hc
      by_contra hcontra
      have : f.data.any csvSpecialChar = true :=
        List.any_eq_true.mpr ⟨c, hc, by simpa using hcontra⟩
      exact hq this
    simp only [csvFieldChars, if_neg hq]
    cases hfd : f.data with
    | nil =>
        have hdel : (d = ',' || d = '\r' || d = '\n') = true := by
          rcases hd3 with h | h | h <;> simp [h]
        simp [hfd, parseField, hdnq, parseUnquoted, hdel]
    | cons c cs =>
        have hc : csvSpecialChar c = false := hnospec c (by rw [hfd]; simp)
        have hcq : ¬(c = '"') := by
          simp only [csvSpecialChar, Bool.or_eq_false_iff] at hc
          simpa using hc.1.1.2
        have := parseUnquoted_render f.data hnospec d rest hd3
        rw [hfd] at this
        simp only [List.cons_append, parseField, hcq, if_neg]
        simpa [List.cons_append] using this

theorem csvRowChars_length_ge_two : ∀ fs : List String,
    2 ≤ (csvRowChars fs).length := by
  intro fs
  match fs with
  | [] => simp [csvRowChars]
  | [f] => simp [csvRowChars]
  | f :: g :: t =>
      have := csvRowChars_length_ge_two (g :: t)
      simp only [csvRowChars, List.length_append, List.length_cons]
      omega

theorem csvRowChars_length_ge_fields : ∀ fs : List String,
    fs.length ≤ (csvRowChars fs).length := by
  intro fs
  match fs with
  | [] => simp [csvRowChars]
  | [f] => simp [csvRowChars]
  | f :: g :: t =>
      have := csvRowChars_length_ge_fields (g :: t)
      simp only [csvRowChars, List.length_append, List.length_cons] at this ⊢
      omega

theorem parseRowAux_render : ∀ (fs : List String), fs ≠ [] →
    ∀ (fuel : Nat), fs.length ≤ fuel → ∀ rest,
    parseRowAux fuel (csvRowChars fs ++ rest) = (fs, rest) := by
  intro fs
  induction fs with
  | nil => intro h; exact absurd rfl h
  | cons f fs' ih =>
      intro _ fuel hfuel rest
      cases fuel with
      | zero => simp at hfuel
      | succ n =>
          cases fs' with
          | nil =>
              have hpf := parseField_render f '\r' (Or.inr rfl) ('\n' :: rest)
              simp only [csvRowChars, List.append_assoc, List.cons_append,
                List.nil_append]
              simp [parseRowAux, hpf, strMkData]
          | cons g t =>
              have hpf := parseField_render f ','
                (Or.inl rfl) (csvRowChars (g :: t) ++ rest)
              have hrec := ih (by simp) n (by simpa using hfuel)
                rest
              simp only [csvRowChars, List.append_assoc, List.cons_append]
              simp [parseRowAux, hpf, hrec, strMkData]

theorem parseRow_render (fs : List String) (h : fs ≠ []) (rest : List Char) :
    parseRow (csvRowChars fs ++ rest) = (fs, rest) := by
  unfold parseRow
  apply parseRowAux_render fs h _ _ rest
  have h1 := csvRowChars_length_ge_fields fs
  simp only [List.length_append]
  omega

theorem flatMap_csvRowChars_length_ge : ∀ rows : List (List String),
    rows.length ≤ (rows.flatMap csvRowChars).length := by
  intro rows
  induction rows with
  | nil => simp
  | cons r rs ih =>
      have h2 := csvRowChars_length_ge_two r
      simp only [List.flatMap_cons, List.length_append, List.length_cons]
      omega

theorem parseRowsAux_render : ∀ (rows : List (List String)),
    (∀ r ∈ rows, r ≠ []) → ∀ fuel, rows.length ≤ fuel →
    parseRowsAux fuel (rows.flatMap csvRowChars) = rows := by
  intro rows
  induction rows with
  | nil =>
      intro _ fuel _
      cases fuel <;> rfl
  | cons r rs ih =>
      intro hne fuel hf
      cases fuel with
      | zero => simp at hf
      | succ n =>
          have h2 := csvRowChars_length_ge_two r
          obtain ⟨c, cs, hc⟩ : ∃ c cs, csvRowChars r = c :: cs := by
            cases hcr : csvRowChars r with
            | nil => rw [hcr] at h2; simp at h2
            | cons a b => exact ⟨a, b, rfl⟩
          have hpr : parseRow (c :: (cs ++ rs.flatMap csvRowChars)) =
              (r, rs.flatMap csvRowChars) := by
            have hpr0 := parseRow_render r (hne r (by simp))
              (rs.flatMap csvRowChars)
            rw [hc] at hpr0
            simpa [List.cons_append] using hpr0
          have hn : rs.length ≤ n := by
            simp only [List.length_cons] at hf
            omega
          simp only [List.flatMap_cons, hc, List.cons_append]
          simp [parseRowsAux, hpr,
            ih (fun x hx => hne x (by simp [hx])) n hn]

theorem flatMap_map_rows (records : List CsvRecord) (headers : List String) :
    records.flatMap (fun r => csvRowChars (headers.map (cellOf r))) =
      (records.map (fun r => headers.map (cellOf r))).flatMap csvRowChars := by
  induction records with
  | nil => rfl
  | cons r rs ih => simp [List.flatMap_cons, ih]

/-- C9: writing any list of N records under the fixed 14-column header
and reading the file back with a standard CSV reader yields the header
row followed by exactly N data rows, and the fields of row i, in header
order, are exactly the serialized fields of record i (a missing key or
a `None` value reads back as the empty string). -/
theorem write_dict_to_csv_roundtrip (records : List CsvRecord) :
    parseCsv (write_dict_to_csv records csv_headers) =
      csv_headers :: records.map (fun r => csv_headers.map (cellOf r)) ∧
    (records.map (fun r => csv_headers.map (cellOf r))).length =
      records.length := by
  refine ⟨?_, by simp⟩
  have hflat : (write_dict_to_csv records csv_headers).data =
      (csv_headers :: records.map (fun r => csv_headers.map (cellOf r))).flatMap
        csvRowChars := by
    simp only [write_dict_to_csv, List.flatMap_cons]
    rw [flatMap_map_rows]
  have hne : ∀ r ∈ csv_headers ::
      records.map (fun r => csv_headers.map (cellOf r)), r ≠ [] := by
    intro r hr
    rcases List.mem_cons.mp hr with h | h
    · subst h; simp [csv_headers]
    · obtain ⟨x, _, hx⟩ := List.mem_map.mp h
      rw [← hx]
      simp [csv_headers]
  unfold parseCsv
  rw [hflat]
  exact parseRowsAux_render _ hne _ (flatMap_csvRowChars_length_ge _)

end EmailParser
